import Mathlib

/-!
Verification development for the be-cvmatcher core services.

The repository's core is embedded shallowly:

* `app/services/file_processor.py`  — document text extraction and cleaning
  (`FileProcessor.extract_text`, `_extract_from_pdf`, `_extract_from_word`,
  `_clean_text`);
* `app/services/linkedin_fetcher.py` — best-effort profile-page extraction
  (`LinkedInFetcher._fetch_profile_text_sync`, `score_section`, `_clean_text`,
  `_dedupe_preserve_order`);
* `app/services/cv_analyzer.py` — the model-fallback cascade
  (`CVAnalyzer.__init__`, `_call_github_models`) and the response validator
  (`_parse_analysis_response`).

Python strings are modelled as `List Char` (ASCII fragment: Python's
unicode-aware `\w` and `str.lower()` are modelled by their ASCII behaviour,
which covers every character the repository's own fixed vocabularies use).
External decoding libraries (PyPDF2, python-docx, the HTTP client and the
HTML parser) are passed in as explicit oracle functions, so theorems
quantify over their behaviour.
-/

/-! ### Python string primitives -/

/-- String literal → character list (Python `str` model). -/
def strL (s : String) : List Char := s.toList

/-- ASCII model of Python `str.lower()`. -/
def lowerStr (l : List Char) : List Char := l.map Char.toLower

/-- ASCII model of Python's whitespace class `\s` (space, tab, newline,
carriage return, vertical tab, form feed). -/
def isPySpace (c : Char) : Bool :=
  c = ' ' || c = '\t' || c = '\n' || c = '\r' || c = '\x0b' || c = '\x0c'

/-- Remove trailing whitespace (the right half of Python `str.strip()`). -/
def dropTrailingWs (l : List Char) : List Char :=
  (l.reverse.dropWhile isPySpace).reverse

/-- Python `str.strip()`: remove leading and trailing whitespace. -/
def pyStrip (l : List Char) : List Char :=
  dropTrailingWs (l.dropWhile isPySpace)

/-- Worker for `collapseRuns`; `inRun` records whether the previous character
belonged to the run currently being replaced. -/
def collapseGo (p : Char → Bool) (rep : Char) : Bool → List Char → List Char
  | _, [] => []
  | inRun, c :: rest =>
    if p c then
      if inRun then collapseGo p rep true rest
      else rep :: collapseGo p rep true rest
    else c :: collapseGo p rep false rest

/-- Model of `re.sub(p+ , rep, l)` for a single-character class `p`: every
maximal run of characters satisfying `p` is replaced by the single
character `rep`. -/
def collapseRuns (p : Char → Bool) (rep : Char) (l : List Char) : List Char :=
  collapseGo p rep false l

/-- Python's `pat in s` substring test. -/
def hasSubstr (pat : List Char) : List Char → Bool
  | [] => pat.isEmpty
  | c :: rest => pat.isPrefixOf (c :: rest) || hasSubstr pat rest

/-! ### `file_processor.py` — `FileProcessor` -/

/-- The punctuation part of the `_clean_text` whitelist
`[^\w\s\-.,;:()\[\]/@#%&+]` in `file_processor.py` line 74. -/
def punctWhitelist : List Char := strL ("-.,;:()[]/@#%&+")

/-- ASCII model of the regex class `\w` (word characters). -/
def isWordChar (c : Char) : Bool := c.isAlphanum || c = '_'

/-- A character survives `_clean_text`'s stripping step iff it is a word
character, whitespace, or one of the whitelisted punctuation marks. -/
def isWhitelisted (c : Char) : Bool :=
  isWordChar c || isPySpace c || punctWhitelist.contains c

/-- `FileProcessor._clean_text` (file_processor.py lines 64-76):
empty short-circuit; collapse newline runs to one newline; collapse
whitespace runs to a single space; drop characters outside the whitelist;
strip leading/trailing whitespace. -/
def clean_text (t : List Char) : List Char :=
  if t.isEmpty then []
  else
    pyStrip (List.filter isWhitelisted
      (collapseRuns isPySpace ' ' (collapseRuns (fun c => c = '\n') '\n' t)))

/-- A structured (docx) document as python-docx presents it: paragraph
texts in document order, and tables as rows of cell texts. -/
structure WordDoc where
  paragraphs : List (List Char)
  tables : List (List (List (List Char)))

/-- A PDF as PyPDF2 presents it: the extracted text of each page
(possibly empty). -/
structure PdfDoc where
  pages : List (List Char)

/-- The text accumulated by `_extract_from_word` before cleaning:
each paragraph followed by a newline, then for each table each row's
cells each followed by a space, each row followed by a newline. -/
def render_word (d : WordDoc) : List Char :=
  (d.paragraphs.map (fun p => p ++ ['\n'])).flatten
    ++ (d.tables.map (fun tbl =>
        (tbl.map (fun row =>
          (row.map (fun cell => cell ++ [' '])).flatten ++ ['\n'])).flatten)).flatten

/-- The text accumulated by `_extract_from_pdf` before cleaning: pages
yielding no text are skipped, others are followed by a newline. -/
def render_pdf (d : PdfDoc) : List Char :=
  (d.pages.map (fun p => if p.isEmpty then [] else p ++ ['\n'])).flatten

/-- `FileProcessor._extract_from_word` (lines 42-62), with the python-docx
decoder passed as an oracle: a decoder failure is wrapped, a decoded
document is rendered and cleaned. -/
def extract_from_word (decodeDocx : List Nat → Except (List Char) WordDoc)
    (content : List Nat) : Except (List Char) (List Char) :=
  match decodeDocx content with
  | .error e => .error (strL ("Failed to extract Word document text: ") ++ e)
  | .ok d => .ok (clean_text (render_word d))

/-- `FileProcessor._extract_from_pdf` (lines 29-40), with the PyPDF2
decoder passed as an oracle. -/
def extract_from_pdf (decodePdf : List Nat → Except (List Char) PdfDoc)
    (content : List Nat) : Except (List Char) (List Char) :=
  match decodePdf content with
  | .error e => .error (strL ("Failed to extract PDF text: ") ++ e)
  | .ok d => .ok (clean_text (render_pdf d))

/-- `file.filename.lower().split('.')[-1]` (file_processor.py line 16):
the substring after the last dot of the lowercased filename. -/
def file_extension (filename : List Char) : List Char :=
  ((lowerStr filename).splitOn '.').getLastD []

/-- `FileProcessor.extract_text` (lines 11-27): dispatch on the extension
(`pdf` → PDF path, `doc`/`docx` → the structured word-document path,
otherwise an unsupported-type error), every failure wrapped with
`Error processing file: `. -/
def extract_text (decodePdf : List Nat → Except (List Char) PdfDoc)
    (decodeDocx : List Nat → Except (List Char) WordDoc)
    (filename : List Char) (content : List Nat) :
    Except (List Char) (List Char) :=
  let ext := file_extension filename
  let inner : Except (List Char) (List Char) :=
    if ext = strL ("pdf") then extract_from_pdf decodePdf content
    else if ext = strL ("doc") || ext = strL ("docx") then
      extract_from_word decodeDocx content
    else .error (strL ("Unsupported file type: ") ++ ext)
  inner.mapError (fun e => strL ("Error processing file: ") ++ e)

/-! ### `linkedin_fetcher.py` — `LinkedInFetcher` -/

/-- The fixed professional-profile vocabulary of `score_section`
(linkedin_fetcher.py lines 70-83). -/
def profileKeywords : List (List Char) :=
  [strL ("experience"), strL ("education"), strL ("skills"),
   strL ("certification"), strL ("projects"), strL ("about"),
   strL ("summary"), strL ("activity"), strL ("languages"),
   strL ("honors"), strL ("awards"), strL ("volunteer")]

/-- `score_section` (linkedin_fetcher.py lines 67-89) applied to an
element's visible text: +1 per vocabulary keyword present in the
lowercased text (once per keyword, not per occurrence), plus a length
bonus of `min(len(text) // 200, 5)`. -/
def score_section (text : List Char) : Nat :=
  (profileKeywords.filter (fun kw => hasSubstr kw (lowerStr text))).length
    + min (text.length / 200) 5

/-- An HTML element as the parsed page presents it: its tag name, its
position in document order, and its visible text (`get_text`). -/
structure HtmlElement where
  tag : List Char
  pos : Nat
  text : List Char
  deriving DecidableEq

/-- The parsed page: optional title string, optional `og:description`
content, and the elements in document order. -/
structure ProfilePage where
  title : Option (List Char)
  ogDescription : Option (List Char)
  elements : List HtmlElement

/-- `soup.select(tag)`: the page's elements with the given tag, in
document order. -/
def selectTag (page : ProfilePage) (t : List Char) : List HtmlElement :=
  page.elements.filter (fun e => e.tag == t)

/-- The candidate collection of `_fetch_profile_text_sync` lines 59-65:
all `section` elements, then all `main` elements, then all `div`
elements (each group in document order). -/
def candidateElements (page : ProfilePage) : List HtmlElement :=
  selectTag page (strL ("section")) ++ selectTag page (strL ("main"))
    ++ selectTag page (strL ("div"))

/-- Stable descending insertion: `x` is placed before the first element
whose key is not larger, so equal keys keep their existing order. -/
def insertDesc {α : Type} (f : α → Nat) (x : α) : List α → List α
  | [] => [x]
  | y :: ys => if f x < f y then y :: insertDesc f x ys else x :: y :: ys

/-- Model of Python's `sorted(l, key=f, reverse=True)`: Python's sort is
stable, ties keep input order, and any stable descending sort equals
this insertion sort. -/
def sortByDesc {α : Type} (f : α → Nat) : List α → List α
  | [] => []
  | x :: xs => insertDesc f x (sortByDesc f xs)

/-- `sorted(candidates, key=score_section, reverse=True)[:12]`
(linkedin_fetcher.py line 92). -/
def rank_candidates (page : ProfilePage) : List HtmlElement :=
  (sortByDesc (fun e => score_section e.text) (candidateElements page)).take 12

/-- One left-to-right pass of
`re.sub(r"See more|Show more|See less|Show less", "", text, flags=re.IGNORECASE)`:
at each position the earliest alternative that matches is deleted and
scanning resumes after it. -/
def removeArtifacts : List Char → List Char
  | [] => []
  | c :: rest =>
    if lowerStr (List.take 8 (c :: rest)) = strL ("see more") then
      removeArtifacts (List.drop 7 rest)
    else if lowerStr (List.take 9 (c :: rest)) = strL ("show more") then
      removeArtifacts (List.drop 8 rest)
    else if lowerStr (List.take 8 (c :: rest)) = strL ("see less") then
      removeArtifacts (List.drop 7 rest)
    else if lowerStr (List.take 9 (c :: rest)) = strL ("show less") then
      removeArtifacts (List.drop 8 rest)
    else c :: removeArtifacts rest
termination_by l => l.length
decreasing_by
  all_goals simp [List.length_drop]
  all_goals omega

/-- `LinkedInFetcher._clean_text` (lines 106-110): collapse whitespace
runs to one space and strip, remove the UI artifacts case-insensitively,
strip again. -/
def li_clean_text (t : List Char) : List Char :=
  pyStrip (removeArtifacts (pyStrip (collapseRuns isPySpace ' ' t)))

/-- Worker for `_dedupe_preserve_order`, carrying the set of seen keys
(first 200 characters of each kept item). -/
def dedupeGo (seen : List (List Char)) : List (List Char) → List (List Char)
  | [] => []
  | x :: xs =>
    let key := x.take 200
    if seen.contains key then dedupeGo seen xs
    else x :: dedupeGo (key :: seen) xs

/-- `LinkedInFetcher._dedupe_preserve_order` (lines 112-120): keep the
first item of every group sharing the same first 200 characters. -/
def dedupe_preserve_order (items : List (List Char)) : List (List Char) :=
  dedupeGo [] items

/-- The block/redirect markers of line 40. -/
def blockMarkers : List (List Char) :=
  [strL ("signin"), strL ("login"), strL ("captcha"),
   strL ("enable javascript")]

/-- What one `requests.get` can do: raise (timeout, connection error) or
return a status code with a body. -/
inductive HttpOutcome where
  | raised : HttpOutcome
  | response (status : Nat) (body : List Char) : HttpOutcome

/-- The network and the HTML parser as oracles; `parse` returning `none`
models BeautifulSoup raising on the body (caught by the surrounding
`try`). -/
structure WebEnv where
  get : List Char → HttpOutcome
  parse : List Char → Option ProfilePage

/-- `LinkedInFetcher._fetch_profile_text_sync` (lines 29-104).  The
returned `Bool` records whether the HTTP GET was issued (the code's only
network side effect).  The function is total: every failure path of the
source (caught by its top-level `try`) yields the empty string.
`title = none` covers both a missing `<title>` tag and a `None` title
string; the `og:description` fragment is appended whenever the raw
content is non-empty, stripped. -/
def fetch_profile_text_sync (w : WebEnv) (url : List Char) :
    List Char × Bool :=
  if url.isEmpty || !(hasSubstr (strL ("linkedin.com")) url) then ([], false)
  else
    match w.get url with
    | .raised => ([], true)
    | .response status body =>
      if status ≠ 200 then ([], true)
      else if blockMarkers.any (fun m => hasSubstr m (lowerStr body)) then
        ([], true)
      else
        match w.parse body with
        | none => ([], true)
        | some page =>
          let titleFrags : List (List Char) :=
            match page.title with
            | some t =>
              if (pyStrip t).isEmpty then [] else [strL ("Title: ") ++ pyStrip t]
            | none => []
          let ogFrags : List (List Char) :=
            match page.ogDescription with
            | some c =>
              if c.isEmpty then [] else [strL ("About: ") ++ pyStrip c]
            | none => []
          let sectionFrags : List (List Char) :=
            ((rank_candidates page).map (fun e => li_clean_text e.text)).filter
              (fun t => 200 < t.length)
          let combined := List.intercalate (strL ("\n\n"))
            (dedupe_preserve_order (titleFrags ++ ogFrags ++ sectionFrags))
          (combined.take 30000, true)

/-! ### `cv_analyzer.py` — `CVAnalyzer` candidate list and cascade -/

/-- The list comprehension of `CVAnalyzer.__init__` line 18:
strip the environment override, split on every comma, strip each part,
keep the non-empty ones. -/
def parse_candidates (env : List Char) : List (List Char) :=
  ((pyStrip env).splitOn ',').filterMap
    (fun m => let s := pyStrip m; if s.isEmpty then none else some s)

/-- The fallback list of `__init__` lines 18-22, headed by the configured
primary model identifier. -/
def default_candidates (model_id : List Char) : List (List Char) :=
  [model_id, strL ("openai/gpt-4o-mini"), strL ("openai/gpt-4o")]

/-- `self.model_candidates`: the parsed override if it has any entry,
else the default list (Python `list or default`). -/
def model_candidates (env : List Char) (model_id : List Char) :
    List (List Char) :=
  let fromEnv := parse_candidates env
  if fromEnv.isEmpty then default_candidates model_id else fromEnv

/-- What one `client.complete` round can do for a candidate model:
succeed with the primary message content, return a falsy/empty response
(no choices or no message), or raise with `str(e) = msg`. -/
inductive CallOutcome where
  | success (content : List Char) : CallOutcome
  | emptyResponse : CallOutcome
  | raised (msg : List Char) : CallOutcome
  deriving DecidableEq

/-- The soft-failure substrings of `_call_github_models` line 128. -/
def softMarkers : List (List Char) :=
  [strL ("unavailable model"), strL ("unavailable_model"),
   strL ("unknown model")]

/-- Line 127-128: a failure is soft iff its lowercased text contains one
of the soft markers. -/
def is_soft_error (msg : List Char) : Bool :=
  softMarkers.any (fun m => hasSubstr m (lowerStr msg))

/-- The message of the line-120 exception for a falsy/empty response. -/
def noResponseMsg : List Char := strL ("No response returned from GitHub Models")

/-- The hard-failure wrapper of line 132. -/
def hardWrap (msg : List Char) : List Char :=
  strL ("Error calling GitHub Models API: ") ++ msg

/-- `f"... {last_error}"`: `str(e)` for an exception, `None` when no
soft failure was recorded. -/
def formatLastError : Option (List Char) → List Char
  | some m => m
  | none => strL ("None")

/-- The aggregated error of lines 134-137, listing the full candidate
list and the last recorded soft-failure cause. -/
def aggregateMsg (allCands : List (List Char)) (lastErr : Option (List Char)) :
    List Char :=
  strL ("Error calling GitHub Models API: none of the candidate models are available. Tried: ")
    ++ List.intercalate (strL (", ")) allCands
    ++ strL (". Last error: ") ++ formatLastError lastErr

/-- The loop of `_call_github_models` lines 101-137 over the remaining
candidates.  Returns the list of candidates actually attempted (in
order) and either the successful candidate with its content or the
escaping error message.  An empty/falsy response raises the line-120
exception inside the `try`, so it is classified by the same
`except` clause as any other failure. -/
def cascadeGo (oracle : List Char → CallOutcome) (allCands : List (List Char))
    (lastErr : Option (List Char)) :
    List (List Char) → List (List Char) × Except (List Char) (List Char × List Char)
  | [] => ([], .error (aggregateMsg allCands lastErr))
  | c :: rest =>
    match oracle c with
    | .success content => ([c], .ok (c, content))
    | .emptyResponse =>
      if is_soft_error noResponseMsg then
        let r := cascadeGo oracle allCands (some noResponseMsg) rest
        (c :: r.1, r.2)
      else ([c], .error (hardWrap noResponseMsg))
    | .raised msg =>
      if is_soft_error msg then
        let r := cascadeGo oracle allCands (some msg) rest
        (c :: r.1, r.2)
      else ([c], .error (hardWrap msg))

/-- `_call_github_models` over the full candidate list: the trace of
attempted candidates and the outcome. -/
def call_github_models (oracle : List Char → CallOutcome)
    (cands : List (List Char)) :
    List (List Char) × Except (List Char) (List Char × List Char) :=
  cascadeGo oracle cands none cands

/-- `self.model_id` after the call (line 123): updated to the succeeding
candidate on success, untouched on failure. -/
def updated_model_id (hint0 : List Char) :
    Except (List Char) (List Char × List Char) → List Char
  | .ok (c, _) => c
  | .error _ => hint0

/-! ### `cv_analyzer.py` — `_parse_analysis_response` -/

/-- A Python value as produced by `json.loads`: note that JSON `true` /
`false` become Python `bool`, which is a subclass of `int`. -/
inductive PyVal where
  | pnull : PyVal
  | pbool (b : Bool) : PyVal
  | pint (n : Int) : PyVal
  | pfloat : PyVal
  | pstr (s : List Char) : PyVal
  | plist (xs : List PyVal) : PyVal
  | pdict (entries : List (List Char × PyVal)) : PyVal

/-- Dict lookup (first matching key; `json.loads` keeps the last
duplicate, but duplicate keys never matter in the claims below). -/
def lookupKV (entries : List (List Char × PyVal)) (k : List Char) :
    Option PyVal :=
  match entries.find? (fun kv => kv.1 == k) with
  | some kv => some kv.2
  | none => none

/-- `app/models.py` `Strength` (field payloads kept as the raw parsed
values). -/
structure Strength where
  title : PyVal
  description : PyVal

/-- `app/models.py` `Weakness`. -/
structure Weakness where
  title : PyVal
  description : PyVal
  suggestion : PyVal

/-- `app/models.py` `AnalysisResult`. -/
structure AnalysisResult where
  match_percentage : Int
  strengths : List Strength
  weaknesses : List Weakness
  summary : PyVal

/-- Python `isinstance(v, int)`: true for `int` and for `bool`
(`bool` is a subclass of `int` in Python, so JSON `true`/`false`
pass this check). -/
def pyIsInstInt : PyVal → Bool
  | .pint _ => true
  | .pbool _ => true
  | _ => false

/-- The integer value of an int-like Python value
(`True == 1`, `False == 0`); unused for other shapes. -/
def pyIntVal : PyVal → Int
  | .pint n => n
  | .pbool b => if b then 1 else 0
  | _ => 0

/-- Python iteration (`for x in v`): lists yield their items, strings
their characters, dicts their keys; other shapes raise `TypeError`. -/
def pyIter : PyVal → Option (List PyVal)
  | .plist xs => some xs
  | .pstr s => some (s.map (fun c => PyVal.pstr [c]))
  | .pdict entries => some (entries.map (fun kv => PyVal.pstr kv.1))
  | _ => none

/-- Python `k in v` for a string `k`: key membership for dicts,
substring test for strings, element equality for lists; `TypeError`
otherwise (exact CPython wording abstracted). -/
def pyHasKey (k : List Char) : PyVal → Except (List Char) Bool
  | .pdict entries => .ok (lookupKV entries k).isSome
  | .pstr s => .ok (hasSubstr k s)
  | .plist xs =>
    .ok (xs.any (fun v => match v with | .pstr s => s == k | _ => false))
  | _ => .error (strL ("argument of type is not iterable"))

/-- Python `v[k]` for a string key `k` (exact CPython wording of the
type errors abstracted). -/
def pyIndexE (v : PyVal) (k : List Char) : Except (List Char) PyVal :=
  match v with
  | .pdict entries =>
    match lookupKV entries k with
    | some x => .ok x
    | none => .error (strL ("KeyError: ") ++ k)
  | _ => .error (strL ("indices must be integers"))

/-- The strengths loop body, lines 167-173. -/
def parseStrengthEntry (x : PyVal) : Except (List Char) Strength := do
  let hasT ← pyHasKey (strL ("title")) x
  if !hasT then
    throw (strL ("Strength missing title or description"))
  else
    let hasD ← pyHasKey (strL ("description")) x
    if !hasD then
      throw (strL ("Strength missing title or description"))
    else do
      let t ← pyIndexE x (strL ("title"))
      let d ← pyIndexE x (strL ("description"))
      return ⟨t, d⟩

/-- The weaknesses loop body, lines 177-186: the required fields are
checked in order, the first missing one named in the error. -/
def parseWeaknessEntry (x : PyVal) : Except (List Char) Weakness := do
  let h1 ← pyHasKey (strL ("title")) x
  if !h1 then throw (strL ("Weakness missing title"))
  else
    let h2 ← pyHasKey (strL ("description")) x
    if !h2 then throw (strL ("Weakness missing description"))
    else
      let h3 ← pyHasKey (strL ("suggestion")) x
      if !h3 then throw (strL ("Weakness missing suggestion"))
      else do
        let t ← pyIndexE x (strL ("title"))
        let d ← pyIndexE x (strL ("description"))
        let s ← pyIndexE x (strL ("suggestion"))
        return ⟨t, d, s⟩

/-- The accumulation loop over one entry list: parse each entry in
order, abort on the first error (the Python loop raises out of the
enclosing `try`). -/
def parseList {β : Type} (f : PyVal → Except (List Char) β) :
    List PyVal → Except (List Char) (List β)
  | [] => .ok []
  | x :: rest => do
    let b ← f x
    let bs ← parseList f rest
    return b :: bs

/-- `for entry in v: ...` collecting parsed entries, first error wins. -/
def parseEntriesWith {β : Type} (f : PyVal → Except (List Char) β)
    (v : PyVal) : Except (List Char) (List β) :=
  match pyIter v with
  | none => .error (strL ("is not iterable"))
  | some entries => parseList f entries

/-- The required top-level keys, in the order of line 155. -/
def requiredFields : List (List Char) :=
  [strL ("match_percentage"), strL ("strengths"), strL ("weaknesses"),
   strL ("summary")]

/-- The first required key missing from the parsed reply, if any
(lines 156-158). -/
def firstMissing (entries : List (List Char × PyVal)) : Option (List Char) :=
  requiredFields.find? (fun f => (lookupKV entries f).isNone)

/-- The range-check error message of line 163. -/
def mpErrMsg : List Char :=
  strL ("Match percentage must be an integer between 0 and 100")

/-- The wrapper of line 204 around every `ValueError` raised by the
validation steps. -/
def parseWrap (e : List Char) : List Char :=
  strL ("Error parsing analysis response: ") ++ e

/-- `data["match_percentage"]` (the default is never used: the required
check ran first). -/
def mpOf (entries : List (List Char × PyVal)) : PyVal :=
  (lookupKV entries (strL ("match_percentage"))).getD PyVal.pnull

/-- `data["strengths"]`. -/
def strengthsOf (entries : List (List Char × PyVal)) : PyVal :=
  (lookupKV entries (strL ("strengths"))).getD PyVal.pnull

/-- `data["weaknesses"]`. -/
def weaknessesOf (entries : List (List Char × PyVal)) : PyVal :=
  (lookupKV entries (strL ("weaknesses"))).getD PyVal.pnull

/-- `data["summary"]`. -/
def summaryOf (entries : List (List Char × PyVal)) : PyVal :=
  (lookupKV entries (strL ("summary"))).getD PyVal.pnull

/-- `_parse_analysis_response` from the parsed JSON dict on (lines
154-199): required keys, the `isinstance(int)` + range check on
`match_percentage` (short-circuit: a non-int never reaches the
comparisons), the strengths and weaknesses loops, then the result.
The cardinality checks of lines 188-192 only `print` a warning and do
not affect the returned value. -/
def parseAnalysisInner (entries : List (List Char × PyVal)) :
    Except (List Char) AnalysisResult :=
  match firstMissing entries with
  | some f => .error (strL ("Missing required field: ") ++ f)
  | none =>
    if !pyIsInstInt (mpOf entries) || pyIntVal (mpOf entries) < 0
        || 100 < pyIntVal (mpOf entries) then
      .error mpErrMsg
    else do
      let ss ← parseEntriesWith parseStrengthEntry (strengthsOf entries)
      let ws ← parseEntriesWith parseWeaknessEntry (weaknessesOf entries)
      return ⟨pyIntVal (mpOf entries), ss, ws, summaryOf entries⟩

/-- `_parse_analysis_response` after `json.loads` succeeded on the
(fence-stripped) reply: every `ValueError` of the validation steps is
caught by the `except Exception` clause and wrapped (line 204). -/
def parse_analysis_data (entries : List (List Char × PyVal)) :
    Except (List Char) AnalysisResult :=
  (parseAnalysisInner entries).mapError parseWrap

/-! ### Helper lemmas: substrings -/

/-- `hasSubstr` decides the infix relation. -/
theorem hasSubstr_iff {pat l : List Char} :
    hasSubstr pat l = true ↔ pat <:+: l := by
  induction l with
  | nil =>
    simp [hasSubstr, List.isEmpty_iff, List.infix_nil]
  | cons c rest ih =>
    simp [hasSubstr, Bool.or_eq_true, List.isPrefixOf_iff_prefix, ih,
      List.infix_cons_iff]

/-! ### Helper lemmas: run collapsing (`re.sub(class+, rep, ·)`) -/

/-- Every character `collapseGo` emits is the replacement or an original
character outside the collapsed class. -/
theorem collapseGo_mem {p : Char → Bool} {rep : Char} :
    ∀ (l : List Char) (b : Bool) (c : Char), c ∈ collapseGo p rep b l →
      c = rep ∨ (c ∈ l ∧ p c = false) := by
  intro l
  induction l with
  | nil => intro b c hc; simp [collapseGo] at hc
  | cons d rest ih =>
    intro b c hc
    by_cases hd : p d
    · simp only [collapseGo, hd, if_true] at hc
      cases b with
      | true =>
        rcases ih true c hc with h | ⟨hm, hp⟩
        · exact Or.inl h
        · exact Or.inr ⟨List.mem_cons_of_mem _ hm, hp⟩
      | false =>
        rcases List.mem_cons.mp hc with h | h
        · exact Or.inl h
        · rcases ih true c h with h' | ⟨hm, hp⟩
          · exact Or.inl h'
          · exact Or.inr ⟨List.mem_cons_of_mem _ hm, hp⟩
    · simp only [collapseGo, hd, if_false] at hc
      rcases List.mem_cons.mp hc with h | h
      · subst h
        exact Or.inr ⟨List.mem_cons_self _ _, by simpa using hd⟩
      · rcases ih false c h with h' | ⟨hm, hp⟩
        · exact Or.inl h'
        · exact Or.inr ⟨List.mem_cons_of_mem _ hm, hp⟩

/-- A string with no character of the collapsed class is left unchanged. -/
theorem collapseGo_of_not_mem {p : Char → Bool} {rep : Char} :
    ∀ (l : List Char) (b : Bool), (∀ c ∈ l, p c = false) →
      collapseGo p rep b l = l := by
  intro l
  induction l with
  | nil => intro b _; rfl
  | cons d rest ih =>
    intro b h
    have hd : p d = false := h d (List.mem_cons_self _ _)
    simp only [collapseGo, hd, Bool.false_eq_true, if_false]
    exact congrArg (d :: ·) (ih false fun c hc => h c (List.mem_cons_of_mem _ hc))

/-- Dropping the leading run of the collapsed class from a collapse
result is the same as collapsing with the in-run flag set. -/
theorem dropWhile_collapseGo {p : Char → Bool} {rep : Char}
    (hrep : p rep = true) :
    ∀ (l : List Char) (b : Bool),
      (collapseGo p rep b l).dropWhile p = collapseGo p rep true l := by
  intro l
  induction l with
  | nil => intro b; rfl
  | cons d rest ih =>
    intro b
    by_cases hd : p d
    · cases b with
      | true => simpa [collapseGo, hd] using ih true
      | false => simp [collapseGo, hd, List.dropWhile, hrep, ih true]
    · simp [collapseGo, hd, List.dropWhile]

/-- Scanning invariant of a collapsed string: every class character is
the replacement and no two class characters are adjacent (the flag is
whether the previous character was in the class). -/
def collapsedB (p : Char → Bool) (rep : Char) : Bool → List Char → Bool
  | _, [] => true
  | prevP, c :: rest =>
    if p c then !prevP && (c == rep) && collapsedB p rep true rest
    else collapsedB p rep false rest

/-- Collapse results satisfy the collapsed invariant. -/
theorem collapsedB_collapseGo {p : Char → Bool} {rep : Char}
    (hrep : p rep = true) :
    ∀ (l : List Char),
      (∀ flag, collapsedB p rep flag (collapseGo p rep true l) = true)
        ∧ collapsedB p rep false (collapseGo p rep false l) = true := by
  intro l
  induction l with
  | nil => exact ⟨fun _ => rfl, rfl⟩
  | cons d rest ih =>
    by_cases hd : p d
    · refine ⟨fun flag => ?_, ?_⟩
      · simpa [collapseGo, hd] using ih.1 flag
      · simp [collapseGo, hd, collapsedB, hrep, ih.1 true]
    · refine ⟨fun flag => ?_, ?_⟩ <;>
        simp [collapseGo, hd, collapsedB, ih.2]

/-- A string satisfying the collapsed invariant is a fixed point of the
collapse. -/
theorem collapseGo_of_collapsedB {p : Char → Bool} {rep : Char} :
    ∀ (l : List Char) (b : Bool), collapsedB p rep b l = true →
      collapseGo p rep b l = l := by
  intro l
  induction l with
  | nil => intro b _; rfl
  | cons d rest ih =>
    intro b h
    by_cases hd : p d
    · simp only [collapsedB, hd, if_true, Bool.and_eq_true, Bool.not_eq_true',
        beq_iff_eq] at h
      obtain ⟨⟨hb, hdr⟩, hrest⟩ := h
      subst hb
      subst hdr
      simp [collapseGo, hd, ih true hrest]
    · simp only [collapsedB, hd, Bool.false_eq_true, if_false] at h
      simp [collapseGo, hd, ih false h]

/-- The collapsed invariant restricts to prefixes. -/
theorem collapsedB_append_left {p : Char → Bool} {rep : Char} :
    ∀ (l₁ l₂ : List Char) (b : Bool), collapsedB p rep b (l₁ ++ l₂) = true →
      collapsedB p rep b l₁ = true := by
  intro l₁
  induction l₁ with
  | nil => intro l₂ b _; rfl
  | cons d rest ih =>
    intro l₂ b h
    by_cases hd : p d
    · simp only [List.cons_append, collapsedB, hd, if_true,
        Bool.and_eq_true] at h ⊢
      exact ⟨h.1, ih l₂ true h.2⟩
    · simp only [List.cons_append, collapsedB, hd, Bool.false_eq_true,
        if_false] at h ⊢
      exact ih l₂ false h

/-- The collapsed invariant is preserved by dropping a leading run. -/
theorem collapsedB_dropWhile {p : Char → Bool} {rep : Char} :
    ∀ (l : List Char), collapsedB p rep false l = true →
      collapsedB p rep false (l.dropWhile p) = true := by
  intro l h
  cases l with
  | nil => exact h
  | cons d rest =>
    by_cases hd : p d
    · simp only [collapsedB, hd, if_true, Bool.and_eq_true] at h
      obtain ⟨-, hrest⟩ := h
      simp only [List.dropWhile, hd]
      cases rest with
      | nil => rfl
      | cons e es =>
        by_cases he : p e
        · simp [collapsedB, he] at hrest
        · simpa [List.dropWhile, he, collapsedB] using hrest
    · simpa [List.dropWhile, hd] using h

/-! ### Helper lemmas: `str.strip()` -/

/-- `dropTrailingWs` keeps a prefix of its argument. -/
theorem dropTrailingWs_initSeg (l : List Char) : dropTrailingWs l <+: l := by
  have h : (l.reverse.dropWhile isPySpace) <:+ l.reverse :=
    List.dropWhile_suffix _
  have h2 := List.reverse_prefix.mpr h
  rwa [List.reverse_reverse] at h2

/-- The head remaining after `dropWhile` fails the predicate. -/
theorem dropWhile_head {p : Char → Bool} :
    ∀ l : List Char, l.dropWhile p = [] ∨
      ∃ c t, l.dropWhile p = c :: t ∧ p c = false := by
  intro l
  induction l with
  | nil => exact Or.inl rfl
  | cons d rest ih =>
    by_cases hd : p d
    · simpa [List.dropWhile, hd] using ih
    · exact Or.inr ⟨d, rest, by simp [List.dropWhile, hd], by simpa using hd⟩

/-- `dropWhile` is idempotent. -/
theorem dropWhile_dropWhile {p : Char → Bool} (l : List Char) :
    (l.dropWhile p).dropWhile p = l.dropWhile p := by
  rcases @dropWhile_head p l with h | ⟨c, t, h, hc⟩
  · simp [h]
  · simp [h, List.dropWhile, hc]

/-- Stripping the trailing run twice is the same as once. -/
theorem dropTrailingWs_dropTrailingWs (l : List Char) :
    dropTrailingWs (dropTrailingWs l) = dropTrailingWs l := by
  unfold dropTrailingWs
  rw [List.reverse_reverse, dropWhile_dropWhile]

/-- After a leading strip, trailing stripping cannot re-expose leading
whitespace. -/
theorem dropWhile_dropTrailingWs (l : List Char) :
    (dropTrailingWs (l.dropWhile isPySpace)).dropWhile isPySpace
      = dropTrailingWs (l.dropWhile isPySpace) := by
  rcases @dropWhile_head isPySpace l with h | ⟨c, t, h, hc⟩
  · simp [h, dropTrailingWs]
  · rw [h]
    obtain ⟨s, hs⟩ := dropTrailingWs_initSeg (c :: t)
    cases hdt : dropTrailingWs (c :: t) with
    | nil => rfl
    | cons c' t' =>
      rw [hdt] at hs
      have : c' = c := by
        have := congrArg (fun l => l.head?) hs
        simpa using this
      subst this
      simp [List.dropWhile, hc]

/-- Python `str.strip()` is idempotent. -/
theorem pyStrip_pyStrip (l : List Char) : pyStrip (pyStrip l) = pyStrip l := by
  unfold pyStrip
  rw [dropWhile_dropTrailingWs, dropTrailingWs_dropTrailingWs]

/-- Members of the strip result are members of the argument. -/
theorem pyStrip_mem {l : List Char} {c : Char} (h : c ∈ pyStrip l) :
    c ∈ l := by
  unfold pyStrip at h
  have h1 : c ∈ (l.dropWhile isPySpace) :=
    ((dropTrailingWs_initSeg _).sublist).mem h
  exact (List.dropWhile_sublist _).mem h1

/-- On an all-whitelisted input the character filter of `clean_text`
passes everything (the collapse steps only introduce a newline or a
space, both whitelisted), so cleaning is strip-after-collapse. -/
theorem clean_text_eq_of_whitelisted (l : List Char)
    (h : ∀ c ∈ l, isWhitelisted c = true) :
    clean_text l =
      pyStrip (collapseRuns isPySpace ' '
        (collapseRuns (fun c => c = '\n') '\n' l)) := by
  by_cases hl : l.isEmpty
  · rw [List.isEmpty_iff] at hl
    subst hl
    rfl
  · unfold clean_text
    rw [if_neg hl]
    congr 1
    apply List.filter_eq_self.mpr
    intro c hc
    simp only [collapseRuns] at hc
    rcases collapseGo_mem _ _ _ hc with hsp | ⟨hmem, -⟩
    · subst hsp; decide
    · rcases collapseGo_mem _ _ _ hmem with hnl | ⟨hmem2, -⟩
      · subst hnl; decide
      · exact h c hmem2

/-- Cleaning an already-cleaned all-whitelisted string changes nothing:
the main idempotence lemma behind the amended C5. -/
theorem clean_text_idem_aux (t : List Char)
    (h : ∀ c ∈ t, isWhitelisted c = true) :
    clean_text (clean_text t) = clean_text t := by
  have hwl : ∀ c ∈ collapseRuns (fun c => c = '\n') '\n' t,
      isWhitelisted c = true := by
    intro c hc
    simp only [collapseRuns] at hc
    rcases collapseGo_mem _ _ _ hc with hnl | ⟨hm, -⟩
    · subst hnl; decide
    · exact h c hm
  set w := collapseRuns (fun c => c = '\n') '\n' t with hw
  set x := collapseRuns isPySpace ' ' w with hx
  have hxchars : ∀ c ∈ x, c = ' ' ∨ (c ∈ w ∧ isPySpace c = false) := by
    intro c hc
    rw [hx] at hc
    simp only [collapseRuns] at hc
    exact collapseGo_mem _ _ _ hc
  have hClean : clean_text t = pyStrip x := clean_text_eq_of_whitelisted t h
  have huwl : ∀ c ∈ pyStrip x, isWhitelisted c = true := by
    intro c hc
    have hcx : c ∈ x := pyStrip_mem hc
    rcases hxchars c hcx with h1 | ⟨h2, -⟩
    · subst h1; decide
    · exact hwl c h2
  have hcolnl : collapseRuns (fun c => c = '\n') '\n' (pyStrip x) = pyStrip x := by
    unfold collapseRuns
    apply collapseGo_of_not_mem
    intro c hc
    have hcx : c ∈ x := pyStrip_mem hc
    have hne : c ≠ '\n' := by
      rcases hxchars c hcx with h1 | ⟨-, h2⟩
      · subst h1; decide
      · intro heq
        subst heq
        simp [isPySpace] at h2
    simpa using hne
  have hxB : collapsedB isPySpace ' ' false x = true := by
    rw [hx]
    unfold collapseRuns
    exact (collapsedB_collapseGo (by decide) w).2
  have huB : collapsedB isPySpace ' ' false (pyStrip x) = true := by
    unfold pyStrip
    have h1 := @collapsedB_dropWhile isPySpace ' ' x hxB
    obtain ⟨s, hs⟩ := dropTrailingWs_initSeg (x.dropWhile isPySpace)
    exact collapsedB_append_left _ s false (by rw [hs]; exact h1)
  have hcolws : collapseRuns isPySpace ' ' (pyStrip x) = pyStrip x := by
    unfold collapseRuns
    exact collapseGo_of_collapsedB (pyStrip x) false huB
  rw [hClean, clean_text_eq_of_whitelisted (pyStrip x) huwl, hcolnl, hcolws,
    pyStrip_pyStrip]

/-! ### Claim C5 — idempotence of the cleaning transform -/

/-- Claim C5, counterexample: the cleaning transform of
`FileProcessor._clean_text` is not idempotent.  On the input `a ! b`
the character-stripping step removes the `!` between two already
collapsed single spaces, leaving `a  b` with a two-space run that a
second application collapses to `a b`. -/
theorem c5_cleaning_not_idempotent :
    clean_text (clean_text (strL ("a ! b"))) ≠ clean_text (strL ("a ! b")) := by
  decide

/-- Claim C5, amended: the cleaning transform is idempotent on every
input all of whose characters lie in the whitelist (word characters,
whitespace, and the punctuation set); for general inputs the stripping
step can merge two whitespace runs, so a second application may collapse
further. -/
theorem c5_cleaning_idempotent_on_whitelisted :
    ∀ t : List Char, (∀ c ∈ t, isWhitelisted c = true) →
      clean_text (clean_text t) = clean_text t :=
  fun t h => clean_text_idem_aux t h

/-- Concrete instance of the amended C5 at the input `"  a  !? b "` — no:
at the whitelisted input `"  a   b, c  "`. -/
theorem c5_cleaning_idempotent_on_whitelisted_witness :
    clean_text (clean_text (strL ("  a   b, c  ")))
      = clean_text (strL ("  a   b, c  ")) :=
  c5_cleaning_idempotent_on_whitelisted (strL ("  a   b, c  ")) (by decide)

/-! ### Claim C10 — extension dispatch in the document extractor -/

/-- Claim C10: format dispatch in `FileProcessor.extract_text` depends
only on the substring after the last dot of the lowercased filename;
the extension `doc` is routed to the same structured-document (docx)
decoder as `docx`; hence a legacy `.doc` payload the decoder rejects
makes extraction fail (wrapped) rather than produce text. -/
theorem c10_doc_routed_to_docx_decoder :
    (∀ dp dd f g c, file_extension f = file_extension g →
        extract_text dp dd f c = extract_text dp dd g c)
    ∧ (∀ dp dd f g c, file_extension f = strL ("doc") →
        file_extension g = strL ("docx") →
        extract_text dp dd f c = extract_text dp dd g c)
    ∧ (∀ dp dd f c e, file_extension f = strL ("doc") →
        dd c = .error e →
        extract_text dp dd f c =
          .error (strL ("Error processing file: ")
            ++ (strL ("Failed to extract Word document text: ") ++ e))) := by
  refine ⟨?_, ?_, ?_⟩
  · intro dp dd f g c h
    simp only [extract_text, h]
  · intro dp dd f g c hf hg
    simp only [extract_text, hf, hg]
    rfl
  · intro dp dd f c e hf hd
    simp only [extract_text, hf, extract_from_word, hd]
    rfl

/-- Concrete instance of C10: an uppercase `.DOC` filename reaches the
docx decoder, and a decoder rejection surfaces as a wrapped error. -/
theorem c10_doc_routed_to_docx_decoder_witness :
    extract_text (fun _ => Except.error []) (fun _ => Except.error (strL ("bad")))
        (strL ("cv.DOC")) []
      = Except.error (strL ("Error processing file: ")
          ++ (strL ("Failed to extract Word document text: ") ++ strL ("bad"))) :=
  c10_doc_routed_to_docx_decoder.2.2 _ _ _ _ _ (by decide) rfl

/-! ### Claim C9 — the candidate list is never empty -/

/-- Claim C9: `CVAnalyzer.__init__` always produces a non-empty
candidate list; when the comma-separated override resolves to zero
non-blank entries the list is the three-element default headed by the
configured primary model identifier. -/
theorem c9_candidates_nonempty :
    ∀ env mid, model_candidates env mid ≠ []
      ∧ (parse_candidates env = [] →
          model_candidates env mid =
            [mid, strL ("openai/gpt-4o-mini"), strL ("openai/gpt-4o")]) := by
  intro env mid
  constructor
  · unfold model_candidates
    by_cases h : (parse_candidates env).isEmpty
    · simp [h, default_candidates]
    · simp only [h, Bool.false_eq_true, if_false]
      simpa [List.isEmpty_iff] using h
  · intro h
    simp [model_candidates, h, default_candidates]

/-- Concrete instance of C9: an override of only commas and blanks
parses to zero entries and yields the default list. -/
theorem c9_candidates_nonempty_witness :
    parse_candidates (strL ("  , ,, ")) = []
      ∧ model_candidates (strL ("  , ,, ")) (strL ("openai/gpt-5")) =
          [strL ("openai/gpt-5"), strL ("openai/gpt-4o-mini"),
           strL ("openai/gpt-4o")]
      ∧ model_candidates (strL ("  , ,, ")) (strL ("openai/gpt-5")) ≠ [] :=
  ⟨by decide,
   (c9_candidates_nonempty (strL ("  , ,, ")) (strL ("openai/gpt-5"))).2 (by decide),
   (c9_candidates_nonempty (strL ("  , ,, ")) (strL ("openai/gpt-5"))).1⟩

/-! ### Claim C8 — monotonicity of the section relevance score -/

/-- Counting a filter is monotone in the predicate. -/
theorem filter_length_mono {α : Type} (l : List α) (p q : α → Bool)
    (h : ∀ x ∈ l, p x = true → q x = true) :
    (l.filter p).length ≤ (l.filter q).length := by
  induction l with
  | nil => exact Nat.le_refl _
  | cons d rest ih =>
    have ih' := ih fun x hx => h x (List.mem_cons_of_mem _ hx)
    by_cases hp : p d = true
    · have hq := h d (List.mem_cons_self _ _) hp
      simp only [List.filter_cons, hp, hq, if_true, List.length_cons]
      omega
    · have hp' : p d = false := by simpa using hp
      by_cases hq : q d = true
      · simp only [List.filter_cons, hp', hq, if_true, Bool.false_eq_true,
          if_false, List.length_cons]
        omega
      · have hq' : q d = false := by simpa using hq
        simp only [List.filter_cons, hp', hq', Bool.false_eq_true, if_false]
        omega

/-- Claim C8: `score_section` is monotonically non-decreasing in the set
of vocabulary keywords present and in the text length: a text whose
lowercased form contains every keyword the first one contains, and which
is at least as long, scores at least as much.  Holding length fixed and
adding a missing keyword, or holding the keyword hits fixed and growing
the text, are the two special cases. -/
theorem c8_score_section_monotone :
    ∀ t u : List Char,
      (∀ kw ∈ profileKeywords, hasSubstr kw (lowerStr t) = true →
        hasSubstr kw (lowerStr u) = true) →
      t.length ≤ u.length →
      score_section t ≤ score_section u := by
  intro t u hk hl
  unfold score_section
  exact Nat.add_le_add
    (filter_length_mono profileKeywords _ _ hk)
    (min_le_min (Nat.div_le_div_right hl) (Nat.le_refl 5))

/-- Concrete instance of C8: adding the keyword `education` (and length)
to a text containing `experience` does not decrease the score. -/
theorem c8_score_section_monotone_witness :
    score_section (strL ("experience"))
      ≤ score_section (strL ("experience and education")) :=
  c8_score_section_monotone _ _ (by decide) (by decide)

/-! ### Claim C1 — the fallback cascade in the soft-soft-success case -/

/-- Claim C1: with candidates `[a, b, c]` where `a` and `b` fail softly
(error text matching a soft-failure substring) and `c` succeeds with a
non-empty reply, `_call_github_models` attempts exactly `a`, then `b`,
then `c`, returns `c`'s primary message content, and updates the
last-successful-model hint (`self.model_id`) to `c`. -/
theorem c1_cascade_soft_soft_success :
    ∀ (oracle : List Char → CallOutcome) (hint0 a b c ea eb content : List Char),
      oracle a = CallOutcome.raised ea → is_soft_error ea = true →
      oracle b = CallOutcome.raised eb → is_soft_error eb = true →
      oracle c = CallOutcome.success content → content ≠ [] →
      call_github_models oracle [a, b, c] = ([a, b, c], Except.ok (c, content))
        ∧ updated_model_id hint0 (call_github_models oracle [a, b, c]).2 = c := by
  intro oracle hint0 a b c ea eb content ha hsa hb hsb hc hne
  have hmain : call_github_models oracle [a, b, c]
      = ([a, b, c], Except.ok (c, content)) := by
    simp [call_github_models, cascadeGo, ha, hb, hc, hsa, hsb]
  refine ⟨hmain, ?_⟩
  rw [hmain]
  rfl

/-- A concrete oracle for the C1 scenario: two soft failures and a
success. -/
def c1Oracle : List Char → CallOutcome := fun m =>
  if m = strL ("model-a") then CallOutcome.raised (strL ("Unavailable Model: model-a"))
  else if m = strL ("model-b") then CallOutcome.raised (strL ("unknown model: model-b"))
  else CallOutcome.success (strL ("the-json-reply"))

/-- Concrete instance of C1. -/
theorem c1_cascade_soft_soft_success_witness :
    call_github_models c1Oracle
        [strL ("model-a"), strL ("model-b"), strL ("model-c")]
      = ([strL ("model-a"), strL ("model-b"), strL ("model-c")],
          Except.ok (strL ("model-c"), strL ("the-json-reply")))
    ∧ updated_model_id (strL ("openai/gpt-5"))
        (call_github_models c1Oracle
          [strL ("model-a"), strL ("model-b"), strL ("model-c")]).2
        = strL ("model-c") :=
  c1_cascade_soft_soft_success c1Oracle (strL ("openai/gpt-5"))
    (strL ("model-a")) (strL ("model-b")) (strL ("model-c"))
    (strL ("Unavailable Model: model-a")) (strL ("unknown model: model-b"))
    (strL ("the-json-reply"))
    (by decide) (by decide) (by decide) (by decide) (by decide) (by decide)

/-! ### Claim C2 — failure classification and aggregation -/

/-- One soft-failure step of the cascade: the failing candidate is
recorded and the loop continues with the remaining candidates and the
new last error. -/
theorem cascadeGo_soft_step (oracle : List Char → CallOutcome)
    (allCands : List (List Char)) (lastErr : Option (List Char))
    (c : List Char) (rest : List (List Char)) (msg : List Char)
    (h1 : oracle c = CallOutcome.raised msg)
    (h2 : is_soft_error msg = true) :
    cascadeGo oracle allCands lastErr (c :: rest) =
      (c :: (cascadeGo oracle allCands (some msg) rest).1,
        (cascadeGo oracle allCands (some msg) rest).2) := by
  simp only [cascadeGo, h1, h2, if_true]

/-- Exhausting an all-soft-failing candidate list yields the aggregated
error naming the full candidate list and the last candidate's cause. -/
theorem cascade_all_soft (oracle : List Char → CallOutcome)
    (allCands : List (List Char)) :
    ∀ (cands : List (List Char)) (lastErr : Option (List Char)),
      cands ≠ [] →
      (∀ c ∈ cands, ∃ m, oracle c = CallOutcome.raised m ∧ is_soft_error m = true) →
      ∃ cl m, cands.getLast? = some cl ∧ oracle cl = CallOutcome.raised m ∧
        cascadeGo oracle allCands lastErr cands =
          (cands, Except.error (aggregateMsg allCands (some m))) := by
  intro cands
  induction cands with
  | nil => intro lastErr h _; exact absurd rfl h
  | cons c rest ih =>
    intro lastErr _ h
    obtain ⟨m, hm, hs⟩ := h c (List.mem_cons_self _ _)
    cases rest with
    | nil =>
      refine ⟨c, m, rfl, hm, ?_⟩
      rw [cascadeGo_soft_step oracle allCands lastErr c [] m hm hs]
      simp [cascadeGo]
    | cons d ds =>
      obtain ⟨cl, m', hlast, hm', hgo⟩ :=
        ih (some m) (by simp) (fun x hx => h x (List.mem_cons_of_mem _ hx))
      refine ⟨cl, m', ?_, hm', ?_⟩
      · rw [List.getLast?_cons_cons]
        exact hlast
      · rw [cascadeGo_soft_step oracle allCands lastErr c (d :: ds) m hm hs, hgo]

/-- Claim C2: a failed call advances the cascade iff its text contains
one of the case-insensitive soft substrings (`unavailable model`,
`unavailable_model`, `unknown model`); any other failure aborts
immediately, wrapped with context, without attempting the rest; and if
every candidate soft-fails the call fails with the aggregated error
listing all attempted identifiers and the last soft-failure cause. -/
theorem c2_soft_hard_classification :
    (∀ msg, is_soft_error msg = true ↔
        ∃ mk ∈ softMarkers, mk <:+: lowerStr msg)
    ∧ (∀ oracle allCands lastErr c rest msg,
        oracle c = CallOutcome.raised msg → is_soft_error msg = true →
        cascadeGo oracle allCands lastErr (c :: rest) =
          (c :: (cascadeGo oracle allCands (some msg) rest).1,
            (cascadeGo oracle allCands (some msg) rest).2))
    ∧ (∀ oracle allCands lastErr c rest msg,
        oracle c = CallOutcome.raised msg → is_soft_error msg = false →
        cascadeGo oracle allCands lastErr (c :: rest) =
          ([c], Except.error (hardWrap msg)))
    ∧ (∀ (oracle : List Char → CallOutcome) (cands : List (List Char)),
        cands ≠ [] →
        (∀ c ∈ cands, ∃ m, oracle c = CallOutcome.raised m ∧ is_soft_error m = true) →
        ∃ cl m, cands.getLast? = some cl ∧ oracle cl = CallOutcome.raised m ∧
          call_github_models oracle cands =
            (cands, Except.error (aggregateMsg cands (some m)))) := by
  refine ⟨?_, ?_, ?_, ?_⟩
  · intro msg
    simp [is_soft_error, List.any_eq_true, hasSubstr_iff]
  · intro oracle allCands lastErr c rest msg h1 h2
    simp [cascadeGo, h1, h2]
  · intro oracle allCands lastErr c rest msg h1 h2
    simp [cascadeGo, h1, h2]
  · intro oracle cands h1 h2
    simpa [call_github_models] using
      cascade_all_soft oracle cands cands none h1 h2

/-- A concrete oracle for the C2 scenarios: one soft failure, one hard
failure, one soft failure. -/
def c2Oracle : List Char → CallOutcome := fun m =>
  if m = strL ("m1") then CallOutcome.raised (strL ("unavailable_model: m1"))
  else if m = strL ("m2") then CallOutcome.raised (strL ("rate limit exceeded"))
  else CallOutcome.raised (strL ("unknown model m3"))

/-- Concrete instances of C2: a hard failure aborts with the wrapped
error, an all-soft list exhausts into the aggregate error, and a
mixed-case message matches a soft marker. -/
theorem c2_soft_hard_classification_witness :
    cascadeGo c2Oracle [strL ("m2")] none [strL ("m2")] =
        ([strL ("m2")], Except.error (hardWrap (strL ("rate limit exceeded"))))
    ∧ (∃ cl m, [strL ("m1"), strL ("m3")].getLast? = some cl
        ∧ c2Oracle cl = CallOutcome.raised m
        ∧ call_github_models c2Oracle [strL ("m1"), strL ("m3")] =
            ([strL ("m1"), strL ("m3")],
              Except.error (aggregateMsg [strL ("m1"), strL ("m3")] (some m))))
    ∧ is_soft_error (strL ("Unavailable Model X")) = true :=
  ⟨c2_soft_hard_classification.2.2.1 c2Oracle [strL ("m2")] none _ [] _
      (by decide) (by decide),
   c2_soft_hard_classification.2.2.2 c2Oracle [strL ("m1"), strL ("m3")]
      (by decide)
      (by
        intro c hc
        rcases List.mem_cons.mp hc with h | h
        · exact ⟨strL ("unavailable_model: m1"), by rw [h]; decide, by decide⟩
        · have h3 : c = strL ("m3") := by simpa using h
          exact ⟨strL ("unknown model m3"), by rw [h3]; decide, by decide⟩),
   (c2_soft_hard_classification.1 (strL ("Unavailable Model X"))).mpr
      ⟨strL ("unavailable model"), by decide,
        ⟨[], strL (" x"), by decide⟩⟩⟩

/-! ### Claim C6 — tie order of the candidate ranking -/

/-- Inserting into a stable descending sort does not disturb the
subsequence of any fixed score: elements strictly above the inserted
score are skipped, and none of them carries that score. -/
theorem filter_insertDesc {α : Type} (f : α → Nat) (s : Nat) (x : α)
    (l : List α) :
    (insertDesc f x l).filter (fun y => f y == s)
      = (x :: l).filter (fun y => f y == s) := by
  induction l with
  | nil => rfl
  | cons y ys ih =>
    by_cases hlt : f x < f y
    · simp only [insertDesc, hlt, if_true, List.filter_cons, ih]
      by_cases hx : f x = s
      · have hxb : (f x == s) = true := beq_iff_eq.mpr hx
        have hyb : (f y == s) = false := beq_eq_false_iff_ne.mpr (by omega)
        simp [hxb, hyb]
      · have hxb : (f x == s) = false := beq_eq_false_iff_ne.mpr hx
        simp [hxb]
    · simp [insertDesc, hlt]

/-- The stable descending sort keeps the subsequence of any fixed score
exactly as it appears in the input. -/
theorem filter_sortByDesc {α : Type} (f : α → Nat) (s : Nat) (l : List α) :
    (sortByDesc f l).filter (fun y => f y == s)
      = l.filter (fun y => f y == s) := by
  induction l with
  | nil => rfl
  | cons x xs ih =>
    rw [sortByDesc, filter_insertDesc]
    simp only [List.filter_cons, ih]

/-- Claim C6, amended: among the kept top-12 candidates, any two with
equal score appear in the order of the candidate collection (all
`section` elements in document order, then all `main` elements, then all
`div` elements) — not in global document order.  The full sort preserves
each equal-score subsequence of the candidate collection exactly, and
the top-12 cut keeps a subsequence of it. -/
theorem c6_equal_score_candidate_order :
    ∀ (page : ProfilePage) (s : Nat),
      (sortByDesc (fun e => score_section e.text)
          (candidateElements page)).filter (fun e => score_section e.text == s)
        = (candidateElements page).filter (fun e => score_section e.text == s)
      ∧ ((rank_candidates page).filter
            (fun e => score_section e.text == s)).Sublist
          ((candidateElements page).filter
            (fun e => score_section e.text == s)) := by
  intro page s
  have h1 := filter_sortByDesc (fun e => score_section e.text) s
    (candidateElements page)
  refine ⟨h1, ?_⟩
  have h2 : (rank_candidates page).Sublist
      (sortByDesc (fun e => score_section e.text) (candidateElements page)) :=
    List.take_sublist _ _
  exact h1 ▸ (h2.filter _)

/-- A page whose `div` precedes its `section` in document order, both
with the same visible text (hence equal scores). -/
def c6Page : ProfilePage :=
  ⟨none, none,
    [⟨strL ("div"), 0, strL ("experience")⟩,
     ⟨strL ("section"), 1, strL ("experience")⟩]⟩

/-- Claim C6, counterexample: the ranking keeps two equal-score
candidates with the `section` (document position 1) before the `div`
(document position 0), because the candidate collection lists all
`section` elements before all `div` elements — so equal-score ties are
not kept in document order. -/
theorem c6_ties_not_document_order :
    ∃ a b : HtmlElement,
      rank_candidates c6Page = [a, b]
        ∧ score_section a.text = score_section b.text
        ∧ b.pos < a.pos :=
  ⟨⟨strL ("section"), 1, strL ("experience")⟩,
   ⟨strL ("div"), 0, strL ("experience")⟩,
   by decide, rfl, by decide⟩

/-! ### Claim C4 — the profile extractor never raises and is bounded -/

/-- Claim C4: `_fetch_profile_text_sync` always returns a string (the
embedding is a total function; every failure path of the source is
caught by its top-level `try` and yields the empty string): a URL not
containing `linkedin.com` yields the empty string without issuing the
HTTP GET, a raising GET or a failing parse yields the empty string, and
every returned string has length at most 30000. -/
theorem c4_profile_extractor_degrades :
    ∀ (w : WebEnv) (url : List Char),
      (fetch_profile_text_sync w url).1.length ≤ 30000
      ∧ (hasSubstr (strL ("linkedin.com")) url = false →
          fetch_profile_text_sync w url = ([], false))
      ∧ (w.get url = HttpOutcome.raised →
          (fetch_profile_text_sync w url).1 = [])
      ∧ (∀ status body, w.get url = HttpOutcome.response status body →
          w.parse body = none → (fetch_profile_text_sync w url).1 = []) := by
  intro w url
  by_cases h1 : (url.isEmpty || !(hasSubstr (strL ("linkedin.com")) url)) = true
  · refine ⟨?_, ?_, ?_, ?_⟩
    · simp [fetch_profile_text_sync, h1]
    · intro _; simp [fetch_profile_text_sync, h1]
    · intro _; simp [fetch_profile_text_sync, h1]
    · intro status body _ _; simp [fetch_profile_text_sync, h1]
  · have hdom : hasSubstr (strL ("linkedin.com")) url = true := by
      rcases Bool.or_eq_false_iff.mp (Bool.eq_false_iff.mpr h1) with ⟨-, h⟩
      simpa using h
    cases hg : w.get url with
    | raised =>
      refine ⟨?_, ?_, ?_, ?_⟩
      · simp [fetch_profile_text_sync, h1, hg]
      · intro hcontra; rw [hcontra] at hdom; exact absurd hdom (by simp)
      · intro _; simp [fetch_profile_text_sync, h1, hg]
      · intro status body hresp _; exact absurd hresp (by simp)
    | response status body =>
      refine ⟨?_, ?_, ?_, ?_⟩
      · by_cases hst : status ≠ 200
        · simp [fetch_profile_text_sync, h1, hg, hst]
        · by_cases hblock :
            (blockMarkers.any (fun m => hasSubstr m (lowerStr body))) = true
          · simp [fetch_profile_text_sync, h1, hg, hst, hblock]
          · cases hp : w.parse body with
            | none => simp [fetch_profile_text_sync, h1, hg, hst, hblock, hp]
            | some page =>
              simp only [fetch_profile_text_sync, h1, Bool.false_eq_true,
                if_false, hg, hst, hblock, hp]
              exact List.length_take_le _ _
      · intro hcontra; rw [hcontra] at hdom; exact absurd hdom (by simp)
      · intro hcontra; exact absurd hcontra (by simp)
      · intro status' body' hresp hparse
        cases hresp
        by_cases hst : status ≠ 200
        · simp [fetch_profile_text_sync, h1, hg, hst]
        · by_cases hblock :
            (blockMarkers.any (fun m => hasSubstr m (lowerStr body))) = true
          · simp [fetch_profile_text_sync, h1, hg, hst, hblock]
          · simp [fetch_profile_text_sync, h1, hg, hst, hblock, hparse]

/-- A network that always raises and a parser that always fails. -/
def c4Env : WebEnv := ⟨fun _ => HttpOutcome.raised, fun _ => none⟩

/-- Concrete instances of C4: the non-profile URL of the spec scenario
returns empty with no network call; a profile URL whose GET raises
returns empty; the bound holds. -/
theorem c4_profile_extractor_degrades_witness :
    fetch_profile_text_sync c4Env (strL ("https://example.com/not-linkedin"))
        = ([], false)
    ∧ (fetch_profile_text_sync c4Env
        (strL ("https://www.linkedin.com/in/someone"))).1 = []
    ∧ (fetch_profile_text_sync c4Env
        (strL ("https://www.linkedin.com/in/someone"))).1.length ≤ 30000 :=
  ⟨(c4_profile_extractor_degrades c4Env _).2.1 (by decide),
   (c4_profile_extractor_degrades c4Env _).2.2.1 rfl,
   (c4_profile_extractor_degrades c4Env _).1⟩

/-! ### Claim C3 — the `match_percentage` validation -/

/-- Claim C3: for a reply whose parsed JSON carries all four required
top-level keys, the validator succeeds only if the `match_percentage`
value passes Python's `isinstance(·, int)` check with a value in
`[0, 100]` (note that Python's `bool` is a subclass of `int`, so JSON
`true`/`false` count as the integers 1/0 for this check, exactly as at
line 162 of the source); every value failing the integer test or lying
outside `[0, 100]` makes the validator fail with the wrapped format
error. -/
theorem c3_match_percentage_validation :
    ∀ entries, firstMissing entries = none →
      ((∀ r, parse_analysis_data entries = Except.ok r →
          pyIsInstInt (mpOf entries) = true
          ∧ 0 ≤ r.match_percentage ∧ r.match_percentage ≤ 100
          ∧ r.match_percentage = pyIntVal (mpOf entries))
       ∧ ((pyIsInstInt (mpOf entries) = false ∨ pyIntVal (mpOf entries) < 0
            ∨ 100 < pyIntVal (mpOf entries)) →
          parse_analysis_data entries = Except.error (parseWrap mpErrMsg))) := by
  intro entries hmiss
  constructor
  · intro r hr
    unfold parse_analysis_data at hr
    cases hinner : parseAnalysisInner entries with
    | error e => rw [hinner] at hr; simp [Except.mapError] at hr
    | ok r' =>
      rw [hinner] at hr
      simp only [Except.mapError, Except.ok.injEq] at hr
      subst hr
      unfold parseAnalysisInner at hinner
      rw [hmiss] at hinner
      by_cases hcond : (!pyIsInstInt (mpOf entries)
          || decide (pyIntVal (mpOf entries) < 0)
          || decide (100 < pyIntVal (mpOf entries))) = true
      · rw [if_pos hcond] at hinner
        exact absurd hinner (by simp)
      · have hb := Bool.eq_false_iff.mpr hcond
        simp only [Bool.or_eq_false_iff, Bool.not_eq_false',
          decide_eq_false_iff_not, Int.not_lt] at hb
        obtain ⟨⟨hint, h0⟩, h100⟩ := hb
        rw [if_neg hcond] at hinner
        cases hss : parseEntriesWith parseStrengthEntry (strengthsOf entries) with
        | error e =>
          rw [hss] at hinner
          exact absurd hinner (by simp [Bind.bind, Except.bind])
        | ok ss =>
          cases hws : parseEntriesWith parseWeaknessEntry (weaknessesOf entries) with
          | error e =>
            rw [hss, hws] at hinner
            exact absurd hinner (by simp [Bind.bind, Except.bind])
          | ok ws =>
            rw [hss, hws] at hinner
            have h2 : Except.ok
                (⟨pyIntVal (mpOf entries), ss, ws, summaryOf entries⟩ :
                  AnalysisResult)
                = Except.ok r' := hinner
            cases h2
            exact ⟨hint, h0, h100, rfl⟩
  · intro hor
    have hcond : (!pyIsInstInt (mpOf entries)
        || decide (pyIntVal (mpOf entries) < 0)
        || decide (100 < pyIntVal (mpOf entries))) = true := by
      simp only [Bool.or_eq_true, Bool.not_eq_true', decide_eq_true_eq]
      tauto
    unfold parse_analysis_data parseAnalysisInner
    rw [hmiss, if_pos hcond]
    rfl

/-- A parsed reply with all four keys and `match_percentage = 150`. -/
def c3Entries : List (List Char × PyVal) :=
  [(strL ("match_percentage"), PyVal.pint 150),
   (strL ("strengths"), PyVal.plist []),
   (strL ("weaknesses"), PyVal.plist []),
   (strL ("summary"), PyVal.pstr (strL ("ok")))]

/-- Concrete instance of C3: `match_percentage = 150` fails with the
wrapped range error. -/
theorem c3_match_percentage_validation_witness :
    parse_analysis_data c3Entries = Except.error (parseWrap mpErrMsg) :=
  (c3_match_percentage_validation c3Entries (by decide)).2
    (Or.inr (Or.inr (by decide)))

/-! ### Claim C7 — cardinality mismatch is only a warning -/

/-- Field access on a dict entry (used to state what the loops build). -/
def dictGet (x : PyVal) (k : List Char) : PyVal :=
  match x with
  | .pdict d => (lookupKV d k).getD PyVal.pnull
  | _ => PyVal.pnull

/-- A strengths entry the loop accepts: a dict carrying `title` and
`description`. -/
def wfStrengthEntry (x : PyVal) : Bool :=
  match x with
  | .pdict d => (lookupKV d (strL ("title"))).isSome
      && (lookupKV d (strL ("description"))).isSome
  | _ => false

/-- The `Strength` the loop builds from an accepted entry. -/
def mkStrength (x : PyVal) : Strength :=
  ⟨dictGet x (strL ("title")), dictGet x (strL ("description"))⟩

/-- A weaknesses entry the loop accepts: a dict carrying `title`,
`description` and `suggestion`. -/
def wfWeaknessEntry (x : PyVal) : Bool :=
  match x with
  | .pdict d => (lookupKV d (strL ("title"))).isSome
      && (lookupKV d (strL ("description"))).isSome
      && (lookupKV d (strL ("suggestion"))).isSome
  | _ => false

/-- The `Weakness` the loop builds from an accepted entry. -/
def mkWeakness (x : PyVal) : Weakness :=
  ⟨dictGet x (strL ("title")), dictGet x (strL ("description")),
   dictGet x (strL ("suggestion"))⟩

/-- An accepted strengths entry parses to its built `Strength`. -/
theorem parseStrengthEntry_wf (x : PyVal) (h : wfStrengthEntry x = true) :
    parseStrengthEntry x = Except.ok (mkStrength x) := by
  cases x with
  | pdict d =>
    simp only [wfStrengthEntry, Bool.and_eq_true, Option.isSome_iff_exists] at h
    obtain ⟨⟨t, ht⟩, ⟨de, hd⟩⟩ := h
    simp [parseStrengthEntry, pyHasKey, pyIndexE, ht, hd, mkStrength, dictGet,
      Bind.bind, Except.bind, Pure.pure, Except.pure]
  | pnull => simp [wfStrengthEntry] at h
  | pbool b => simp [wfStrengthEntry] at h
  | pint n => simp [wfStrengthEntry] at h
  | pfloat => simp [wfStrengthEntry] at h
  | pstr s => simp [wfStrengthEntry] at h
  | plist xs => simp [wfStrengthEntry] at h

/-- An accepted weaknesses entry parses to its built `Weakness`. -/
theorem parseWeaknessEntry_wf (x : PyVal) (h : wfWeaknessEntry x = true) :
    parseWeaknessEntry x = Except.ok (mkWeakness x) := by
  cases x with
  | pdict d =>
    simp only [wfWeaknessEntry, Bool.and_eq_true, Option.isSome_iff_exists] at h
    obtain ⟨⟨⟨t, ht⟩, ⟨de, hd⟩⟩, ⟨s, hs⟩⟩ := h
    simp [parseWeaknessEntry, pyHasKey, pyIndexE, ht, hd, hs, mkWeakness,
      dictGet, Bind.bind, Except.bind, Pure.pure, Except.pure]
  | pnull => simp [wfWeaknessEntry] at h
  | pbool b => simp [wfWeaknessEntry] at h
  | pint n => simp [wfWeaknessEntry] at h
  | pfloat => simp [wfWeaknessEntry] at h
  | pstr s => simp [wfWeaknessEntry] at h
  | plist xs => simp [wfWeaknessEntry] at h

/-- The strengths loop over accepted entries collects them all, whatever
their number. -/
theorem parseList_strengths (xs : List PyVal)
    (h : ∀ x ∈ xs, wfStrengthEntry x = true) :
    parseList parseStrengthEntry xs = Except.ok (xs.map mkStrength) := by
  induction xs with
  | nil => rfl
  | cons x rest ih =>
    have hx := parseStrengthEntry_wf x (h x (List.mem_cons_self _ _))
    have hrest := ih fun y hy => h y (List.mem_cons_of_mem _ hy)
    simp [parseList, hx, hrest, Bind.bind, Except.bind, Pure.pure, Except.pure]

/-- The weaknesses loop over accepted entries collects them all,
whatever their number. -/
theorem parseList_weaknesses (xs : List PyVal)
    (h : ∀ x ∈ xs, wfWeaknessEntry x = true) :
    parseList parseWeaknessEntry xs = Except.ok (xs.map mkWeakness) := by
  induction xs with
  | nil => rfl
  | cons x rest ih =>
    have hx := parseWeaknessEntry_wf x (h x (List.mem_cons_self _ _))
    have hrest := ih fun y hy => h y (List.mem_cons_of_mem _ hy)
    simp [parseList, hx, hrest, Bind.bind, Except.bind, Pure.pure, Except.pure]

/-- Claim C7: when all key, type and range checks pass, a strengths list
of length ≠ 4 or a weaknesses list of length ≠ 5 is not a failure: the
validator still returns an `AnalysisResult` with exactly the entries
produced (the count check only prints a warning). -/
theorem c7_cardinality_mismatch_nonfatal :
    ∀ (entries : List (List Char × PyVal)) (n : Int) (ss ws : List PyVal)
      (sm : PyVal),
      lookupKV entries (strL ("match_percentage")) = some (PyVal.pint n) →
      0 ≤ n → n ≤ 100 →
      lookupKV entries (strL ("strengths")) = some (PyVal.plist ss) →
      (∀ x ∈ ss, wfStrengthEntry x = true) →
      lookupKV entries (strL ("weaknesses")) = some (PyVal.plist ws) →
      (∀ x ∈ ws, wfWeaknessEntry x = true) →
      lookupKV entries (strL ("summary")) = some sm →
      ss.length ≠ 4 ∨ ws.length ≠ 5 →
      parse_analysis_data entries =
        Except.ok ⟨n, ss.map mkStrength, ws.map mkWeakness, sm⟩ := by
  intro entries n ss ws sm hmp h0 h100 hss hwfs hws hwfw hsm hcard
  have hmiss : firstMissing entries = none := by
    simp [firstMissing, requiredFields, List.find?_cons, hmp, hss, hws, hsm]
  have hmpOf : mpOf entries = PyVal.pint n := by simp [mpOf, hmp]
  have hcond : (!pyIsInstInt (mpOf entries)
      || decide (pyIntVal (mpOf entries) < 0)
      || decide (100 < pyIntVal (mpOf entries))) = false := by
    rw [hmpOf]
    simp only [pyIsInstInt, pyIntVal, Bool.not_true, Bool.false_or,
      Bool.or_eq_false_iff, decide_eq_false_iff_not, Int.not_lt]
    exact ⟨h0, h100⟩
  have hparsed_ss : parseEntriesWith parseStrengthEntry (strengthsOf entries)
      = Except.ok (ss.map mkStrength) := by
    simp [strengthsOf, hss, parseEntriesWith, pyIter, parseList_strengths ss hwfs]
  have hparsed_ws : parseEntriesWith parseWeaknessEntry (weaknessesOf entries)
      = Except.ok (ws.map mkWeakness) := by
    simp [weaknessesOf, hws, parseEntriesWith, pyIter, parseList_weaknesses ws hwfw]
  have hsum : summaryOf entries = sm := by simp [summaryOf, hsm]
  unfold parse_analysis_data parseAnalysisInner
  rw [hmiss]
  rw [if_neg (by simp [hcond])]
  rw [hparsed_ss, hparsed_ws, hmpOf, hsum]
  rfl

/-- A parsed reply with 2 strengths and 1 weakness (instead of 4 and
5). -/
def c7Entries : List (List Char × PyVal) :=
  [(strL ("match_percentage"), PyVal.pint 70),
   (strL ("strengths"), PyVal.plist
     [PyVal.pdict [(strL ("title"), PyVal.pstr (strL ("t1"))),
                   (strL ("description"), PyVal.pstr (strL ("d1")))],
      PyVal.pdict [(strL ("title"), PyVal.pstr (strL ("t2"))),
                   (strL ("description"), PyVal.pstr (strL ("d2")))]]),
   (strL ("weaknesses"), PyVal.plist
     [PyVal.pdict [(strL ("title"), PyVal.pstr (strL ("w1"))),
                   (strL ("description"), PyVal.pstr (strL ("wd1"))),
                   (strL ("suggestion"), PyVal.pstr (strL ("s1")))]]),
   (strL ("summary"), PyVal.pstr (strL ("fine")))]

/-- Concrete instance of C7: 2 strengths and 1 weakness still yield a
result carrying exactly those entries. -/
theorem c7_cardinality_mismatch_nonfatal_witness :
    parse_analysis_data c7Entries =
      Except.ok ⟨70,
        [⟨PyVal.pstr (strL ("t1")), PyVal.pstr (strL ("d1"))⟩,
         ⟨PyVal.pstr (strL ("t2")), PyVal.pstr (strL ("d2"))⟩],
        [⟨PyVal.pstr (strL ("w1")), PyVal.pstr (strL ("wd1")),
          PyVal.pstr (strL ("s1"))⟩],
        PyVal.pstr (strL ("fine"))⟩ := by
  have h := c7_cardinality_mismatch_nonfatal c7Entries 70
    [PyVal.pdict [(strL ("title"), PyVal.pstr (strL ("t1"))),
                  (strL ("description"), PyVal.pstr (strL ("d1")))],
     PyVal.pdict [(strL ("title"), PyVal.pstr (strL ("t2"))),
                  (strL ("description"), PyVal.pstr (strL ("d2")))]]
    [PyVal.pdict [(strL ("title"), PyVal.pstr (strL ("w1"))),
                  (strL ("description"), PyVal.pstr (strL ("wd1"))),
                  (strL ("suggestion"), PyVal.pstr (strL ("s1")))]]
    (PyVal.pstr (strL ("fine")))
    rfl (by decide) (by decide) rfl
    (by intro x hx; fin_cases hx; all_goals rfl)
    rfl
    (by intro x hx; fin_cases hx; all_goals rfl)
    rfl
    (Or.inl (by decide))
  simpa using h
